import Mathlib

/-!
Shallow embedding of the interactive commit-message refinement core of
`llm-git-commit` (source: `src/llm_git_commit/__init__.py`).

Text is modelled as `List Char` (Python `str`).  The pure pieces
(marker parsing, confirmation predicates, editor resolution) become Lean
functions; the interactive loop `_chat_for_refinement` becomes a step
function over scripted per-turn inputs (user line, confirmation answers,
model reply), with the chat history and the evolving draft as explicit
state.
-/

/-- Python `str` modelled as a list of characters. -/
abbrev Str := List Char

/-- Coerce a Lean string literal to the `Str` model. -/
def str (s : String) : Str := s.data

/-- Characters stripped by Python `str.strip()` (whitespace). -/
def isWs (c : Char) : Bool :=
  c == ' ' || c == '\t' || c == '\n' || c == '\r' || c == '\x0b' || c == '\x0c'

/-- Python `s.strip()`: remove leading and trailing whitespace. -/
def trim (s : Str) : Str :=
  ((s.dropWhile isWs).reverse.dropWhile isWs).reverse

/-- Python `s.lower()` (modelled via `Char.toLower`). -/
def lowerStr (s : Str) : Str := s.map Char.toLower

/-- `headMatches pat t` holds when `pat` is an initial segment of `t`
(Python: the substring occurs at offset 0). -/
def headMatches : Str → Str → Bool
  | [], _ => true
  | _ :: _, [] => false
  | p :: ps, c :: cs => p == c && headMatches ps cs

/-- Python `t.find(pat)`: index of the first occurrence of `pat` in `t`,
`none` when absent (Python returns `-1`). -/
def findIn (pat : Str) : Str → Option Nat
  | [] => if headMatches pat [] then some 0 else none
  | c :: cs => if headMatches pat (c :: cs) then some 0 else (findIn pat cs).map (· + 1)

/-- Python `t.find(pat, start)`: first occurrence at index `≥ start`. -/
def findFrom (pat t : Str) (start : Nat) : Option Nat :=
  (findIn pat (t.drop start)).map (· + start)

/-- `pat` occurs in `t` at offset `i`. -/
def occursAt (pat t : Str) (i : Nat) : Prop := headMatches pat (t.drop i) = true

instance (pat t : Str) (i : Nat) : Decidable (occursAt pat t i) := by
  unfold occursAt; infer_instance

/-- `PROPOSED_COMMIT_MARKER_START` (source line 338). -/
def startMarker : Str := str "PROPOSED_COMMIT_MESSAGE_START"

/-- `PROPOSED_COMMIT_MARKER_END` (source line 339). -/
def endMarker : Str := str "PROPOSED_COMMIT_MESSAGE_END"

/-- Result of parsing one model reply (source lines 1054-1078):
the conversational segments collected in `conversational_parts_to_print`,
the optional `extracted_proposal_text`, and
`conversational_text_for_history_if_proposal_rejected`. -/
structure ParsedResponse where
  conversational : List Str
  proposal : Option Str
  histText : Str
deriving Repr, DecidableEq

/-- `"\n".join` of the list (Python `"\n".join(filter(None, parts))` keeps
the truthy, i.e. non-empty, parts). -/
def joinNL (xs : List Str) : Str := List.intercalate (str "\n") xs

/-- Marker extraction applied to a raw model reply, translated from
source lines 1054-1078: find the first start marker; if found, find the
first end marker after it; when both exist, the trimmed text before /
between / after them become the conversational segments (empty ones
dropped) and the proposal (absent when empty); otherwise the whole
trimmed reply is the single conversational segment and there is no
proposal. -/
def parseReply (t : Str) : ParsedResponse :=
  match findIn startMarker t with
  | none => ⟨[trim t], none, trim t⟩
  | some s =>
    match findFrom endMarker t (s + startMarker.length) with
    | none => ⟨[trim t], none, trim t⟩
    | some e =>
      let convBefore := trim (t.take s)
      let between := trim ((t.take e).drop (s + startMarker.length))
      let convAfter := trim (t.drop (e + endMarker.length))
      ⟨(if convBefore = [] then [] else [convBefore]) ++
         (if convAfter = [] then [] else [convAfter]),
       if between = [] then none else some between,
       trim (joinNL (List.filter (fun x => !x.isEmpty) [convBefore, convAfter]))⟩

/-! ## The refinement session (`_chat_for_refinement`, source lines 906-1129) -/

/-- Role of one chat-history entry. -/
inductive Role
  | user
  | assistant
deriving Repr, DecidableEq

/-- One entry of `chat_history`: `{"role": ..., "content": ...}`. -/
structure ChatTurn where
  role : Role
  content : Str
deriving Repr, DecidableEq

/-- Mutable state of the loop: `message_being_refined_in_chat` and
`chat_history`. -/
structure SessState where
  draft : Str
  history : List ChatTurn
deriving Repr, DecidableEq

/-- What one `prompt_async` read produces: a line, or one of the three
exceptional outcomes the source maps to `"/cancel"`
(`KeyboardInterrupt`, `EOFError`, a `None` result; source lines 976-979). -/
inductive ReadLine
  | line (s : Str)
  | interrupt
  | eofSignal
  | noneResult
deriving Repr, DecidableEq

/-- `user_input_from_prompt` after the exception handlers and the `None`
check (source lines 971-979). -/
def rawInput : ReadLine → Str
  | .line s => s
  | .interrupt => str "/cancel"
  | .eofSignal => str "/cancel"
  | .noneResult => str "/cancel"

/-- `cleaned_user_query` (source lines 981-985): strip the raw input;
an empty result is turned into `"/cancel"` unless the raw input was the
exact string `"/apply"` (the Ctrl+A keybinding exits the prompt with that
result). -/
def cleanedQuery (r : ReadLine) : Str :=
  let raw := rawInput r
  let c := trim raw
  if c = [] ∧ raw ≠ str "/apply" then str "/cancel" else c

/-- The yes/no confirmation predicate used at both confirmation sites
(source lines 1016 and 1107):
`answer.lower().strip() == 'y' or not answer.strip()`. -/
def isYesAnswer (ans : Str) : Bool :=
  trim (lowerStr ans) == str "y" || (trim ans).isEmpty

/-- History note appended when a proposal is accepted (source line 1110). -/
def acceptNote : Str := str "(User accepted LLM's proposal to update draft)"

/-- History note used when a proposal is rejected and there was no
conversational text (source line 1117). -/
def rejectNote : Str := str "(LLM made a proposal which was rejected by the user.)"

/-- History note recorded when the model call raises (source line 1087). -/
def errNote (e : Str) : Str := str "(LLM Error: " ++ e ++ str ")"

/-- The visible error line printed when the model call raises
(source line 1086). -/
def errPrinted (e : Str) : Str := str "\nLLM Error: " ++ e

/-- Outcome of the model call of one chat turn. `Except.error e` models an
exception raised by the collaborator, carrying the exception text. -/
abbrev ModelReply := Except Str Str

instance : DecidableEq ModelReply := fun a b =>
  match a, b with
  | .error x, .error y =>
    if h : x = y then isTrue (by rw [h]) else isFalse (by simp [h])
  | .error _, .ok _ => isFalse (by simp)
  | .ok _, .error _ => isFalse (by simp)
  | .ok x, .ok y =>
    if h : x = y then isTrue (by rw [h]) else isFalse (by simp [h])

/-- What the `try`/`except` block around the model call (source lines
1036-1089) determines for the rest of the turn: the printed error line if
any, `extracted_proposal_text`, the conversational text destined for the
history, and `conversational_parts_to_print`. -/
structure ReplyOutcome where
  errorLine : Option Str
  proposal : Option Str
  histText : Str
  convSegments : List Str
deriving Repr, DecidableEq

/-- Handling of one model reply (source lines 1036-1089): an exception is
caught and becomes an error note with no proposal; an empty reply yields
nothing; otherwise the reply goes through marker extraction. -/
def processReply : ModelReply → ReplyOutcome
  | .error e => ⟨some (errPrinted e), none, errNote e, []⟩
  | .ok txt =>
    if trim txt = [] then ⟨none, none, [], []⟩
    else
      let p := parseReply txt
      ⟨none, p.proposal, p.histText, p.conversational⟩

/-- `llm_full_response_text.strip()` is empty — true when the model call
raised (the variable keeps its initial `""`) or the reply is blank
(source lines 1031, 1050, 1125). -/
def replyTextBlank : ModelReply → Bool
  | .error _ => true
  | .ok txt => (trim txt).isEmpty

/-- One chat turn (the `else` branch of the loop, source lines 1026-1126):
append the user query to the history, process the model reply, and when a
proposal was extracted run the accept/reject confirmation; finally append
the determined assistant response to the history when it is non-empty or
the model returned no text (source line 1125). -/
def chatTurn (st : SessState) (query : Str) (reply : ModelReply)
    (acceptAnswer : Str) : SessState :=
  let hist1 := st.history ++ [⟨Role.user, query⟩]
  let r := processReply reply
  match r.proposal with
  | some p =>
    if isYesAnswer acceptAnswer then
      let hist2 := hist1 ++ [⟨Role.user, acceptNote⟩]
      { draft := p,
        history := if p ≠ [] ∨ replyTextBlank reply = true then
            hist2 ++ [⟨Role.assistant, p⟩] else hist2 }
    else
      let a := if r.histText ≠ [] then r.histText else rejectNote
      { draft := st.draft,
        history := if a ≠ [] ∨ replyTextBlank reply = true then
            hist1 ++ [⟨Role.assistant, a⟩] else hist1 }
  | none =>
    { draft := st.draft,
      history := if r.histText ≠ [] ∨ replyTextBlank reply = true then
          hist1 ++ [⟨Role.assistant, r.histText⟩] else hist1 }

/-- Terminal value of a session: `/cancel` returns the seed
(`initial_commit_draft`, line 992), a confirmed `/apply` returns the
current draft (line 1018); `outOfInput` marks a script that ended while
the loop would still be prompting. -/
inductive SessionOutcome
  | cancelled (result : Str)
  | applied (result : Str)
  | outOfInput (final : SessState)
deriving Repr, DecidableEq

/-- Result of one iteration of the `while True` loop: terminate with an
outcome, or continue prompting from a new state. -/
inductive StepResult
  | done (o : SessionOutcome)
  | next (st : SessState)
deriving Repr, DecidableEq

/-- The `/apply` branch (source lines 994-1023): an empty/whitespace draft
is rejected (`continue`, state untouched); otherwise the confirmation is
asked and an affirmative or empty answer terminates the session with the
current draft, any other answer continues the loop. -/
def applyTurn (st : SessState) (confirmAnswer : Str) : StepResult :=
  if trim st.draft = [] then .next st
  else if isYesAnswer confirmAnswer then .done (.applied st.draft)
  else .next st

/-- Scripted inputs consumed by one loop iteration: the prompt read, the
answer given if the `/apply` confirmation is reached, the model reply if a
chat query is sent, and the answer given if a proposal confirmation is
reached. -/
structure TurnInput where
  userLine : ReadLine
  applyAnswer : Str
  modelReply : ModelReply
  acceptAnswer : Str
deriving Repr, DecidableEq

/-- One iteration of the loop (source lines 965-1128): classify the
cleaned input as `/cancel` (return the seed), `/apply` (apply
sub-protocol), or a chat query. -/
def sessionStep (seed : Str) (st : SessState) (inp : TurnInput) : StepResult :=
  let cleaned := cleanedQuery inp.userLine
  if lowerStr cleaned = str "/cancel" then .done (.cancelled seed)
  else if lowerStr cleaned = str "/apply" then applyTurn st inp.applyAnswer
  else .next (chatTurn st cleaned inp.modelReply inp.acceptAnswer)

/-- Run the loop over a script of per-turn inputs. -/
def runSession (seed : Str) : SessState → List TurnInput → SessionOutcome
  | st, [] => .outOfInput st
  | st, inp :: rest =>
    match sessionStep seed st inp with
    | .done o => o
    | .next st2 => runSession seed st2 rest

/-- `_chat_for_refinement`: the loop started with
`message_being_refined_in_chat = initial_commit_draft` and an empty
`chat_history` (source lines 933-934). -/
def chatForRefinement (seed : Str) (inputs : List TurnInput) : SessionOutcome :=
  runSession seed ⟨seed, []⟩ inputs

/-! ## Editor resolution (source lines 171-227 and 535-553) -/

/-- Python truthiness of an optional string (`if editor:` treats both
`None` and `""` as false). -/
def truthy : Option Str → Bool
  | none => false
  | some s => !s.isEmpty

/-- Result of `subprocess.run(["git", "config", "core.editor"], ...)`:
exit 0 with some stdout, a non-zero exit, or `FileNotFoundError`. -/
inductive GitConfigResult
  | ok (stdout : Str)
  | failed
  | gitMissing
deriving Repr, DecidableEq

/-- The environment consulted by `get_editor_from_env`. -/
structure EditorEnv where
  llmGitCommitEditor : Option Str
  gitCoreEditor : GitConfigResult
  visual : Option Str
  editorVar : Option Str
deriving Repr, DecidableEq

/-- `os.environ.get("VISUAL") or os.environ.get("EDITOR")` (source
line 194): the first operand when truthy, otherwise the second as-is. -/
def visualOrEditor (env : EditorEnv) : Option Str :=
  if truthy env.visual then env.visual else env.editorVar

/-- `get_editor_from_env` (source lines 171-194):
`LLM_GIT_COMMIT_EDITOR`, then `git config core.editor` (exit 0 and
non-blank stdout, stripped), then `VISUAL`, then `EDITOR`. -/
def get_editor_from_env (env : EditorEnv) : Option Str :=
  if truthy env.llmGitCommitEditor then env.llmGitCommitEditor
  else
    match env.gitCoreEditor with
    | .ok out => if trim out ≠ [] then some (trim out) else visualOrEditor env
    | .failed => visualOrEditor env
    | .gitMissing => visualOrEditor env

/-- `resolve_editor` (source lines 197-227), over the persisted
`config.get("editor", "internal")` value and the `use_external_flag`
parameter.  Returns the `(mode, editor_command)` pair. -/
def resolve_editor (cfgEditor : Option Str) (useExternalFlag : Bool)
    (env : EditorEnv) : Str × Option Str :=
  let ec0 := cfgEditor.getD (str "internal")
  let ec := if useExternalFlag = true ∧ ec0 = str "internal" then str "env" else ec0
  if ec = str "internal" then (str "internal", none)
  else if ec = str "env" then
    let envEditor := get_editor_from_env env
    if truthy envEditor then (str "env", envEditor) else (str "internal", none)
  else (str "command", some ec)

/-- The CLI dispatch (source lines 535-543): a truthy `-e` (editor)
override is handled directly (`"env"` / `"internal"` / explicit command),
otherwise `resolve_editor(config)` is consulted. -/
def determineEditor (editorOverride cfgEditor : Option Str)
    (env : EditorEnv) : Str × Option Str :=
  if truthy editorOverride then
    let ov := editorOverride.getD []
    if ov = str "env" then (str "env", get_editor_from_env env)
    else if ov = str "internal" then (str "internal", none)
    else (str "command", some ov)
  else resolve_editor cfgEditor false env

/-- The editing surface finally used. -/
inductive EditorChoice
  | internal
  | external (cmd : Str)
deriving Repr, DecidableEq

/-- Choice of the editing surface (source lines 545-553): internal mode
uses the built-in editor; otherwise a truthy command launches the external
editor and a missing command falls back to the built-in editor. -/
def chooseEditor (editorOverride cfgEditor : Option Str)
    (env : EditorEnv) : EditorChoice :=
  let mc := determineEditor editorOverride cfgEditor env
  if mc.1 = str "internal" then .internal
  else if truthy mc.2 then .external (mc.2.getD [])
  else .internal

/-- `git config core.editor` yielded nothing usable (blank stdout,
non-zero exit, or git missing). -/
def gitEditorAbsent : GitConfigResult → Prop
  | .ok out => trim out = []
  | .failed => True
  | .gitMissing => True

/-! ## Correctness of the substring finder -/

theorem findIn_eq_some (pat t : Str) (i : Nat) (h : findIn pat t = some i) :
    occursAt pat t i ∧ ∀ j, j < i → ¬ occursAt pat t j := by
  induction t generalizing i with
  | nil =>
    unfold findIn at h
    split at h
    · cases h
      exact ⟨‹headMatches pat [] = true›, fun j hj => by omega⟩
    · cases h
  | cons c cs ih =>
    unfold findIn at h
    split at h
    case isTrue hm =>
      cases h
      exact ⟨hm, fun j hj => by omega⟩
    case isFalse hm =>
      cases hf : findIn pat cs with
      | none => rw [hf] at h; cases h
      | some k =>
        rw [hf] at h
        simp only [Option.map_some', Option.some.injEq] at h
        obtain ⟨h1, h2⟩ := ih k hf
        subst h
        refine ⟨h1, ?_⟩
        intro j hj ho
        match j with
        | 0 => exact hm ho
        | j' + 1 => exact h2 j' (by omega) ho

theorem findIn_eq_none (pat t : Str) (h : findIn pat t = none) :
    ∀ i, ¬ occursAt pat t i := by
  induction t with
  | nil =>
    intro i ho
    unfold findIn at h
    split at h
    · cases h
    · rw [occursAt, List.drop_nil] at ho
      exact absurd ho ‹_›
  | cons c cs ih =>
    unfold findIn at h
    split at h
    · cases h
    · intro i ho
      cases hf : findIn pat cs with
      | some k => rw [hf] at h; cases h
      | none =>
        match i with
        | 0 => exact ‹¬ headMatches pat (c :: cs) = true› ho
        | i' + 1 => exact ih hf i' ho

theorem findIn_eq_some_of (pat t : Str) (i : Nat)
    (h1 : occursAt pat t i) (h2 : ∀ j, j < i → ¬ occursAt pat t j) :
    findIn pat t = some i := by
  cases hf : findIn pat t with
  | none => exact absurd h1 (findIn_eq_none pat t hf i)
  | some k =>
    obtain ⟨hk1, hk2⟩ := findIn_eq_some pat t k hf
    rcases Nat.lt_trichotomy k i with hlt | heq | hgt
    · exact absurd hk1 (h2 k hlt)
    · rw [heq]
    · exact absurd h1 (hk2 i hgt)

theorem findIn_eq_none_of (pat t : Str) (h : ∀ i, ¬ occursAt pat t i) :
    findIn pat t = none := by
  cases hf : findIn pat t with
  | none => rfl
  | some k => exact absurd (findIn_eq_some pat t k hf).1 (h k)

theorem occursAt_drop (pat t : Str) (a k : Nat) :
    occursAt pat (t.drop a) k ↔ occursAt pat t (a + k) := by
  unfold occursAt
  rw [List.drop_drop]

theorem findFrom_eq_some (pat t : Str) (a e : Nat) (h : findFrom pat t a = some e) :
    a ≤ e ∧ occursAt pat t e ∧ ∀ j, a ≤ j → j < e → ¬ occursAt pat t j := by
  unfold findFrom at h
  cases hf : findIn pat (t.drop a) with
  | none => rw [hf] at h; cases h
  | some k =>
    rw [hf] at h
    simp only [Option.map_some', Option.some.injEq] at h
    obtain ⟨h1, h2⟩ := findIn_eq_some pat (t.drop a) k hf
    subst h
    refine ⟨by omega, ?_, ?_⟩
    · have := (occursAt_drop pat t a k).mp h1
      rwa [Nat.add_comm a k] at this
    · intro j hj1 hj2 ho
      apply h2 (j - a) (by omega)
      rw [occursAt_drop, show a + (j - a) = j by omega]
      exact ho

theorem findFrom_eq_none (pat t : Str) (a : Nat) (h : findFrom pat t a = none) :
    ∀ j, a ≤ j → ¬ occursAt pat t j := by
  unfold findFrom at h
  cases hf : findIn pat (t.drop a) with
  | some k => rw [hf] at h; cases h
  | none =>
    intro j hj ho
    apply findIn_eq_none pat (t.drop a) hf (j - a)
    rw [occursAt_drop, show a + (j - a) = j by omega]
    exact ho

theorem findFrom_eq_some_of (pat t : Str) (a e : Nat)
    (h0 : a ≤ e) (h1 : occursAt pat t e)
    (h2 : ∀ j, a ≤ j → j < e → ¬ occursAt pat t j) :
    findFrom pat t a = some e := by
  unfold findFrom
  have hf : findIn pat (t.drop a) = some (e - a) := by
    apply findIn_eq_some_of
    · rw [occursAt_drop, show a + (e - a) = e by omega]
      exact h1
    · intro j hj ho
      rw [occursAt_drop] at ho
      exact h2 (a + j) (by omega) (by omega) ho
  rw [hf]
  simp only [Option.map_some', Option.some.injEq]
  omega

theorem findFrom_eq_none_of (pat t : Str) (a : Nat)
    (h : ∀ j, a ≤ j → ¬ occursAt pat t j) : findFrom pat t a = none := by
  unfold findFrom
  cases hf : findIn pat (t.drop a) with
  | none => rfl
  | some k =>
    exfalso
    have h1 := (findIn_eq_some pat (t.drop a) k hf).1
    rw [occursAt_drop] at h1
    exact h (a + k) (by omega) h1

/-! ## Claims about the proposal parser -/

/-- C3: when the start marker first occurs at `s` and the end marker first
occurs at `e` after the start marker's end, `parseReply` returns the
trimmed text before the start marker and the trimmed text after that end
marker as the (at most two, empty ones dropped, before first)
conversational segments, and the trimmed text strictly between the
markers as the proposal — absent when that trimmed text is empty, the
conversational segments being unaffected. -/
theorem marker_extraction_segments (t : Str) (s e : Nat)
    (hs1 : occursAt startMarker t s)
    (hs2 : ∀ j, j < s → ¬ occursAt startMarker t j)
    (he0 : s + startMarker.length ≤ e)
    (he1 : occursAt endMarker t e)
    (he2 : ∀ j, j < e → s + startMarker.length ≤ j → ¬ occursAt endMarker t j) :
    (parseReply t).conversational =
      (if trim (t.take s) = [] then [] else [trim (t.take s)]) ++
      (if trim (t.drop (e + endMarker.length)) = [] then []
       else [trim (t.drop (e + endMarker.length))]) ∧
    (parseReply t).proposal =
      (if trim ((t.take e).drop (s + startMarker.length)) = [] then none
       else some (trim ((t.take e).drop (s + startMarker.length)))) := by
  have hf1 : findIn startMarker t = some s := findIn_eq_some_of _ _ _ hs1 hs2
  have hf2 : findFrom endMarker t (s + startMarker.length) = some e :=
    findFrom_eq_some_of _ _ _ _ he0 he1 (fun j h1 h2 => he2 j h2 h1)
  simp only [parseReply, hf1, hf2]
  exact ⟨trivial, trivial⟩

/-- Concrete input where both markers are found. -/
def sampleBoth : Str :=
  str "A PROPOSED_COMMIT_MESSAGE_START B PROPOSED_COMMIT_MESSAGE_END C"

theorem marker_extraction_segments_witness :
    (parseReply sampleBoth).conversational =
      (if trim (sampleBoth.take 2) = [] then [] else [trim (sampleBoth.take 2)]) ++
      (if trim (sampleBoth.drop (34 + endMarker.length)) = [] then []
       else [trim (sampleBoth.drop (34 + endMarker.length))]) ∧
    (parseReply sampleBoth).proposal =
      (if trim ((sampleBoth.take 34).drop (2 + startMarker.length)) = [] then none
       else some (trim ((sampleBoth.take 34).drop (2 + startMarker.length)))) :=
  marker_extraction_segments sampleBoth 2 34 (by decide)
    (by decide) (by decide) (by decide) (by decide)

/-- C4: `parseReply` is a total function (it can raise nothing), and on
every malformed input — no start marker anywhere, or a start marker whose
end is never paired — it degrades to no proposal with the whole trimmed
input as the single conversational segment. -/
theorem parse_malformed_graceful (t : Str)
    (h : (∀ i, ¬ occursAt startMarker t i) ∨
      (∃ s, occursAt startMarker t s ∧ (∀ j, j < s → ¬ occursAt startMarker t j) ∧
        ∀ j, s + startMarker.length ≤ j → ¬ occursAt endMarker t j)) :
    (parseReply t).conversational = [trim t] ∧ (parseReply t).proposal = none := by
  rcases h with h | ⟨s, h1, h2, h3⟩
  · have hf : findIn startMarker t = none := findIn_eq_none_of _ _ h
    simp only [parseReply, hf]
    exact ⟨trivial, trivial⟩
  · have hf1 : findIn startMarker t = some s := findIn_eq_some_of _ _ _ h1 h2
    have hf2 : findFrom endMarker t (s + startMarker.length) = none :=
      findFrom_eq_none_of _ _ _ h3
    simp only [parseReply, hf1, hf2]
    exact ⟨trivial, trivial⟩

theorem parse_malformed_graceful_witness :
    (parseReply (str "hello")).conversational = [trim (str "hello")] ∧
    (parseReply (str "hello")).proposal = none :=
  parse_malformed_graceful (str "hello")
    (Or.inl (findIn_eq_none startMarker (str "hello") (by decide)))

/-! ## Claims about the refinement session -/

theorem parseReply_proposal_ne_nil (t P : Str)
    (h : (parseReply t).proposal = some P) : P ≠ [] := by
  cases h1 : findIn startMarker t with
  | none =>
    simp only [parseReply, h1] at h
    cases h
  | some s =>
    cases h2 : findFrom endMarker t (s + startMarker.length) with
    | none =>
      simp only [parseReply, h1, h2] at h
      cases h
    | some e =>
      simp only [parseReply, h1, h2] at h
      split at h
      · cases h
      · cases h
        assumption

theorem processReply_ok_blank (txt : Str) (ht : trim txt = []) :
    processReply (.ok txt) = ⟨none, none, [], []⟩ := by
  simp [processReply, ht]

theorem processReply_ok_parsed (txt : Str) (ht : ¬ trim txt = []) :
    processReply (.ok txt) =
      ⟨none, (parseReply txt).proposal, (parseReply txt).histText,
       (parseReply txt).conversational⟩ := by
  simp [processReply, ht]

theorem processReply_proposal_ne_nil (reply : ModelReply) (P : Str)
    (h : (processReply reply).proposal = some P) : P ≠ [] := by
  cases reply with
  | error e => simp [processReply] at h
  | ok txt =>
    by_cases ht : trim txt = []
    · rw [processReply_ok_blank txt ht] at h
      cases h
    · rw [processReply_ok_parsed txt ht] at h
      exact parseReply_proposal_ne_nil txt P h

/-- C1: in a chat turn whose model reply yields a proposal `P`, an
affirmative answer to the acceptance confirmation makes the working draft
exactly `P`, and a negative answer leaves the working draft exactly what
it was before the turn, whatever the prior draft and proposal. -/
theorem accept_replaces_reject_preserves (st : SessState) (q : Str)
    (reply : ModelReply) (P ans : Str)
    (hp : (processReply reply).proposal = some P) :
    (isYesAnswer ans = true → (chatTurn st q reply ans).draft = P) ∧
    (isYesAnswer ans = false → (chatTurn st q reply ans).draft = st.draft) := by
  constructor <;> intro hy <;> simp [chatTurn, hp, hy]

theorem accept_replaces_reject_preserves_witness :
    (isYesAnswer [] = true →
      (chatTurn ⟨str "fix: bug", []⟩ (str "improve it") (.ok sampleBoth) []).draft =
        str "B") ∧
    (isYesAnswer [] = false →
      (chatTurn ⟨str "fix: bug", []⟩ (str "improve it") (.ok sampleBoth) []).draft =
        str "fix: bug") :=
  accept_replaces_reject_preserves ⟨str "fix: bug", []⟩ (str "improve it")
    (.ok sampleBoth) (str "B") [] (by decide)

theorem sessionStep_cancelled_eq_seed (seed : Str) (st : SessState)
    (inp : TurnInput) (r : Str)
    (h : sessionStep seed st inp = .done (.cancelled r)) : r = seed := by
  simp only [sessionStep] at h
  split at h
  · injection h with h
    injection h with h
    exact h.symm
  · split at h
    · unfold applyTurn at h
      split at h
      · cases h
      · split at h
        · injection h with h
          cases h
        · cases h
    · cases h

theorem runSession_cancelled (seed : Str) (st : SessState)
    (inputs : List TurnInput) (r : Str)
    (h : runSession seed st inputs = .cancelled r) : r = seed := by
  induction inputs generalizing st with
  | nil => cases h
  | cons inp rest ih =>
    cases hs : sessionStep seed st inp with
    | done o =>
      simp only [runSession, hs] at h
      subst h
      exact sessionStep_cancelled_eq_seed seed st inp r hs
    | next st2 =>
      simp only [runSession, hs] at h
      exact ih st2 h

/-- C2: whenever a refinement session ends as Cancelled — by the
`/cancel` token, an interrupt, or end-of-input, after any number of turns
and accepted proposals — its result is exactly the original seed draft,
regardless of the current working draft. -/
theorem cancel_returns_seed (seed : Str) (inputs : List TurnInput) (r : Str)
    (h : chatForRefinement seed inputs = .cancelled r) : r = seed :=
  runSession_cancelled seed ⟨seed, []⟩ inputs r h

theorem cancel_returns_seed_witness :
    chatForRefinement (str "fix: bug")
      [⟨.line (str "improve"),  [],
          .ok (str "PROPOSED_COMMIT_MESSAGE_START new PROPOSED_COMMIT_MESSAGE_END"), []⟩,
       ⟨.interrupt, [], .ok [], []⟩] = .cancelled (str "fix: bug") ∧
    str "fix: bug" = str "fix: bug" :=
  ⟨by decide,
   cancel_returns_seed (str "fix: bug")
     [⟨.line (str "improve"), [],
         .ok (str "PROPOSED_COMMIT_MESSAGE_START new PROPOSED_COMMIT_MESSAGE_END"), []⟩,
      ⟨.interrupt, [], .ok [], []⟩] (str "fix: bug") (by decide)⟩

/-- C5: when the current working draft is empty or whitespace-only, an
`/apply` turn never terminates the session as Applied: the step returns
to prompting with the state (draft and history) unchanged. -/
theorem apply_empty_draft_rejected (seed : Str) (st : SessState) (inp : TurnInput)
    (ha : lowerStr (cleanedQuery inp.userLine) = str "/apply")
    (hd : trim st.draft = []) :
    sessionStep seed st inp = .next st := by
  have hnc : lowerStr (cleanedQuery inp.userLine) ≠ str "/cancel" := by
    rw [ha]; decide
  simp only [sessionStep]
  rw [if_neg hnc, if_pos ha]
  unfold applyTurn
  rw [if_pos hd]

theorem apply_empty_draft_rejected_witness :
    sessionStep (str "seed") ⟨str "  ", []⟩
      ⟨.line (str "/apply"), str "y", .ok [], []⟩ = .next ⟨str "  ", []⟩ :=
  apply_empty_draft_rejected (str "seed") ⟨str "  ", []⟩
    ⟨.line (str "/apply"), str "y", .ok [], []⟩ (by decide) (by decide)

/-- C6: a line that is empty after trimming (and is not the `/apply`
keybinding result) is classified as Cancel — the session terminates at
once with the original seed draft, with no further prompting and no chat
query sent. -/
theorem empty_input_cancels (seed : Str) (st : SessState) (inp : TurnInput)
    (rest : List TurnInput) (s : Str)
    (hl : inp.userLine = .line s) (he : trim s = []) :
    runSession seed st (inp :: rest) = .cancelled seed := by
  have hap : s ≠ str "/apply" := by
    intro hcontra
    rw [hcontra] at he
    exact absurd he (by decide)
  have hc : cleanedQuery inp.userLine = str "/cancel" := by
    rw [hl]
    simp only [cleanedQuery, rawInput]
    rw [if_pos ⟨he, hap⟩]
  have hlow : lowerStr (cleanedQuery inp.userLine) = str "/cancel" := by
    rw [hc]; decide
  have hs : sessionStep seed st inp = .done (.cancelled seed) := by
    simp only [sessionStep]
    rw [if_pos hlow]
  simp only [runSession, hs]

theorem chatTurn_accepted (st : SessState) (q : Str) (reply : ModelReply)
    (P ans : Str) (hp : (processReply reply).proposal = some P)
    (hy : isYesAnswer ans = true) :
    chatTurn st q reply ans =
      { draft := P,
        history := st.history ++
          [⟨Role.user, q⟩, ⟨Role.user, acceptNote⟩, ⟨Role.assistant, P⟩] } := by
  have hP : P ≠ [] := processReply_proposal_ne_nil reply P hp
  simp only [chatTurn, hp, hy, if_true]
  rw [if_pos (Or.inl hP)]
  simp

theorem chatTurn_rejected (st : SessState) (q : Str) (reply : ModelReply)
    (P ans : Str) (hp : (processReply reply).proposal = some P)
    (hy : isYesAnswer ans = false) :
    chatTurn st q reply ans =
      { draft := st.draft,
        history := st.history ++
          [⟨Role.user, q⟩,
           ⟨Role.assistant,
            if (processReply reply).histText ≠ [] then (processReply reply).histText
            else rejectNote⟩] } := by
  have ha : (if (processReply reply).histText ≠ [] then (processReply reply).histText
      else rejectNote) ≠ [] := by
    by_cases hh : (processReply reply).histText = []
    · simp only [hh, ne_eq, not_true_eq_false, if_false, ite_false]
      decide
    · simp only [ne_eq, hh, not_false_eq_true, if_true, ite_true]
  simp only [chatTurn, hp, hy]
  rw [if_neg (by simp [hy]), if_pos (Or.inl ha)]
  simp

theorem empty_input_cancels_witness :
    runSession (str "d0") ⟨str "other draft", []⟩
      [⟨.line (str "   "), [], .ok [], []⟩] = .cancelled (str "d0") :=
  empty_input_cancels (str "d0") ⟨str "other draft", []⟩
    ⟨.line (str "   "), [], .ok [], []⟩ [] (str "   ") rfl (by decide)


/-- C7: both yes/no confirmations of the refinement session — the apply
confirmation and the proposal-acceptance confirmation — are governed by
one and the same predicate `isYesAnswer`, under which an empty response
means yes: with a non-blank draft, `/apply` terminates as Applied exactly
when the answer is empty or affirmative, and a pending proposal is
accepted exactly when the answer is empty or affirmative. -/
theorem confirmation_default_yes (st : SessState) (q : Str) (reply : ModelReply)
    (P ans : Str) (hp : (processReply reply).proposal = some P)
    (hd : trim st.draft ≠ []) :
    isYesAnswer [] = true ∧
    (applyTurn st ans = .done (.applied st.draft) ↔ isYesAnswer ans = true) ∧
    (chatTurn st q reply ans =
        { draft := P,
          history := st.history ++
            [⟨Role.user, q⟩, ⟨Role.user, acceptNote⟩, ⟨Role.assistant, P⟩] } ↔
      isYesAnswer ans = true) := by
  refine ⟨by decide, ?_, ?_⟩
  · unfold applyTurn
    rw [if_neg hd]
    constructor
    · intro h
      by_cases hy : isYesAnswer ans = true
      · exact hy
      · rw [if_neg hy] at h
        cases h
    · intro hy
      rw [if_pos hy]
  · constructor
    · intro h
      by_cases hy : isYesAnswer ans = true
      · exact hy
      · exfalso
        have hy2 : isYesAnswer ans = false := by
          revert hy; cases isYesAnswer ans <;> simp
        rw [chatTurn_rejected st q reply P ans hp hy2] at h
        have hlen := congrArg (fun x : SessState => x.history.length) h
        simp at hlen
    · intro hy
      exact chatTurn_accepted st q reply P ans hp hy

theorem confirmation_default_yes_witness :
    isYesAnswer [] = true ∧
    (applyTurn ⟨str "draft", []⟩ (str " Y ") =
        .done (.applied (str "draft")) ↔ isYesAnswer (str " Y ") = true) ∧
    (chatTurn ⟨str "draft", []⟩ (str "q") (.ok sampleBoth) (str " Y ") =
        { draft := str "B",
          history := [] ++
            [⟨Role.user, str "q"⟩, ⟨Role.user, acceptNote⟩,
             ⟨Role.assistant, str "B"⟩] } ↔
      isYesAnswer (str " Y ") = true) :=
  confirmation_default_yes ⟨str "draft", []⟩ (str "q") (.ok sampleBoth)
    (str "B") (str " Y ") (by decide) (by decide)

/-- C8: an exception raised by the model call is caught: it is surfaced
as a visible error line, recorded in the chat history as an error note
after the user's query, and the turn carries no proposal — the step
returns to prompting with the draft unchanged, never terminating the
session. -/
theorem model_error_nonfatal (seed : Str) (st : SessState) (inp : TurnInput)
    (e : Str) (hr : inp.modelReply = Except.error e)
    (hc : lowerStr (cleanedQuery inp.userLine) ≠ str "/cancel")
    (ha : lowerStr (cleanedQuery inp.userLine) ≠ str "/apply") :
    (processReply inp.modelReply).errorLine = some (errPrinted e) ∧
    (processReply inp.modelReply).proposal = none ∧
    sessionStep seed st inp =
      .next { draft := st.draft,
              history := st.history ++
                [⟨Role.user, cleanedQuery inp.userLine⟩,
                 ⟨Role.assistant, errNote e⟩] } := by
  refine ⟨by rw [hr]; rfl, by rw [hr]; rfl, ?_⟩
  simp only [sessionStep]
  rw [if_neg hc, if_neg ha, hr]
  simp only [chatTurn, processReply]
  have hcond : errNote e ≠ [] ∨ replyTextBlank (Except.error e) = true :=
    Or.inr rfl
  rw [if_pos hcond]
  simp

theorem model_error_nonfatal_witness :
    (processReply (TurnInput.mk (.line (str "hi")) [] (.error (str "boom")) []).modelReply).errorLine =
        some (errPrinted (str "boom")) ∧
    (processReply (TurnInput.mk (.line (str "hi")) [] (.error (str "boom")) []).modelReply).proposal =
        none ∧
    sessionStep (str "seed") ⟨str "d", []⟩
        (TurnInput.mk (.line (str "hi")) [] (.error (str "boom")) []) =
      .next { draft := str "d",
              history := [] ++
                [⟨Role.user,
                  cleanedQuery (TurnInput.mk (.line (str "hi")) [] (.error (str "boom")) []).userLine⟩,
                 ⟨Role.assistant, errNote (str "boom")⟩] } :=
  model_error_nonfatal (str "seed") ⟨str "d", []⟩
    (TurnInput.mk (.line (str "hi")) [] (.error (str "boom")) [])
    (str "boom") rfl (by decide) (by decide)

/-- C10: on an accepted proposal, exactly two history entries follow the
user's query turn: a user-role note with the fixed acceptance text, then
an assistant-role turn whose content is the accepted proposal; on a
rejected proposal, a single assistant-role turn follows, containing the
reply's conversational text, or the fixed rejection note when that text
is empty. -/
theorem history_append_shape (st : SessState) (q : Str) (reply : ModelReply)
    (P ans : Str) (hp : (processReply reply).proposal = some P) :
    (isYesAnswer ans = true →
      (chatTurn st q reply ans).history =
        (st.history ++ [⟨Role.user, q⟩]) ++
          [⟨Role.user, acceptNote⟩, ⟨Role.assistant, P⟩]) ∧
    (isYesAnswer ans = false →
      (chatTurn st q reply ans).history =
        (st.history ++ [⟨Role.user, q⟩]) ++
          [⟨Role.assistant,
            if (processReply reply).histText ≠ [] then (processReply reply).histText
            else rejectNote⟩]) := by
  constructor
  · intro hy
    rw [chatTurn_accepted st q reply P ans hp hy]
    simp
  · intro hy
    rw [chatTurn_rejected st q reply P ans hp hy]
    simp

theorem history_append_shape_witness :
    (isYesAnswer (str "n") = true →
      (chatTurn ⟨str "d", []⟩ (str "q") (.ok sampleBoth) (str "n")).history =
        ([] ++ [⟨Role.user, str "q"⟩]) ++
          [⟨Role.user, acceptNote⟩, ⟨Role.assistant, str "B"⟩]) ∧
    (isYesAnswer (str "n") = false →
      (chatTurn ⟨str "d", []⟩ (str "q") (.ok sampleBoth) (str "n")).history =
        ([] ++ [⟨Role.user, str "q"⟩]) ++
          [⟨Role.assistant,
            if (processReply (Except.ok sampleBoth)).histText ≠ []
            then (processReply (Except.ok sampleBoth)).histText
            else rejectNote⟩]) :=
  history_append_shape ⟨str "d", []⟩ (str "q") (.ok sampleBoth) (str "B")
    (str "n") (by decide)

/-! ## Claim about editor resolution -/

theorem truthy_some (s : Str) (h : s ≠ []) : truthy (some s) = true := by
  cases s with
  | nil => exact absurd rfl h
  | cons a l => rfl

/-- C9: the editing surface obeys the precedence CLI explicit command >
CLI use-environment flag > persisted command setting > persisted
environment setting > built-in internal editor; environment detection
itself tries `LLM_GIT_COMMIT_EDITOR`, then `git config core.editor`, then
`VISUAL`, then `EDITOR`, first non-empty winning; and an environment mode
that resolves to nothing yields the built-in internal editor. -/
theorem editor_resolution_precedence (env : EditorEnv) (cfg : Option Str)
    (c : Str) (hc : c ≠ []) (hce : c ≠ str "env") (hci : c ≠ str "internal") :
    chooseEditor (some c) cfg env = .external c ∧
    chooseEditor (some (str "env")) cfg env =
      (if truthy (get_editor_from_env env) = true
       then .external ((get_editor_from_env env).getD []) else .internal) ∧
    chooseEditor none (some c) env = .external c ∧
    chooseEditor none (some (str "env")) env =
      (if truthy (get_editor_from_env env) = true
       then .external ((get_editor_from_env env).getD []) else .internal) ∧
    chooseEditor none none env = .internal ∧
    chooseEditor none (some (str "internal")) env = .internal ∧
    (truthy env.llmGitCommitEditor = true →
      get_editor_from_env env = env.llmGitCommitEditor) ∧
    (∀ out, truthy env.llmGitCommitEditor = false → env.gitCoreEditor = .ok out →
      trim out ≠ [] → get_editor_from_env env = some (trim out)) ∧
    (truthy env.llmGitCommitEditor = false → gitEditorAbsent env.gitCoreEditor →
      truthy env.visual = true → get_editor_from_env env = env.visual) ∧
    (truthy env.llmGitCommitEditor = false → gitEditorAbsent env.gitCoreEditor →
      truthy env.visual = false → get_editor_from_env env = env.editorVar) := by
  have hcmd : ¬ (str "command" = str "internal") := by decide
  have hei : ¬ (str "env" = str "internal") := by decide
  have henv : truthy (some (str "env")) = true := rfl
  have htn : truthy (none : Option Str) = false := rfl
  refine ⟨?_, ?_, ?_, ?_, ?_, ?_, ?_, ?_, ?_, ?_⟩
  · simp [chooseEditor, determineEditor, truthy_some c hc, hce, hci, hcmd]
  · by_cases ht : truthy (get_editor_from_env env) = true
    · simp [chooseEditor, determineEditor, henv, hei, ht]
    · have ht2 : truthy (get_editor_from_env env) = false := by
        revert ht; cases truthy (get_editor_from_env env) <;> simp
      simp [chooseEditor, determineEditor, henv, hei, ht2]
  · simp [chooseEditor, determineEditor, resolve_editor, htn,
      truthy_some c hc, hce, hci, hcmd]
  · by_cases ht : truthy (get_editor_from_env env) = true
    · simp [chooseEditor, determineEditor, resolve_editor, htn, hei, ht]
    · have ht2 : truthy (get_editor_from_env env) = false := by
        revert ht; cases truthy (get_editor_from_env env) <;> simp
      simp [chooseEditor, determineEditor, resolve_editor, htn, hei, ht2]
  · simp [chooseEditor, determineEditor, resolve_editor, truthy]
  · simp [chooseEditor, determineEditor, resolve_editor, truthy]
  · intro h
    simp [get_editor_from_env, h]
  · intro out h1 h2 h3
    simp [get_editor_from_env, h1, h2, h3]
  · intro h1 h2 h3
    cases hg : env.gitCoreEditor with
    | ok out =>
      rw [hg] at h2
      have h2x : trim out = [] := h2
      simp [get_editor_from_env, visualOrEditor, h1, hg, h2x, h3]
    | failed => simp [get_editor_from_env, visualOrEditor, h1, hg, h3]
    | gitMissing => simp [get_editor_from_env, visualOrEditor, h1, hg, h3]
  · intro h1 h2 h3
    cases hg : env.gitCoreEditor with
    | ok out =>
      rw [hg] at h2
      have h2x : trim out = [] := h2
      simp [get_editor_from_env, visualOrEditor, h1, hg, h2x, h3]
    | failed => simp [get_editor_from_env, visualOrEditor, h1, hg, h3]
    | gitMissing => simp [get_editor_from_env, visualOrEditor, h1, hg, h3]

theorem editor_resolution_precedence_witness :
    chooseEditor (some (str "vim")) (some (str "internal"))
      ⟨none, .failed, none, none⟩ = .external (str "vim") :=
  (editor_resolution_precedence ⟨none, .failed, none, none⟩
    (some (str "internal")) (str "vim") (by decide) (by decide) (by decide)).1
